import Mathlib

/-!
# TokenInvalidator: the detect-and-report handler of `bot.go`

A shallow embedding of `onMessage` and of the package-level variables it reads.

* Message text is a `String`; the matcher works on its list of characters, and a
  match is reported by the index of its first character and the index just past
  its last one.  Every character the pattern accepts is ASCII, so these indexes
  select the same substrings as Go's byte offsets.
* `regexp.MustCompile` is represented by the parsed pattern: a sequence of
  counted atoms.  `FindAllString` follows the loop of Go's `regexp` package
  (leftmost match from the current position, then resume at the end of that
  match, at most `n` matches).
* Calls that leave the handler (JSON encoding and decoding, the HTTP client, the
  chat REST client, the logger) are answered by a `World` and recorded, in
  order, in the list of `Call`s that `onMessage` returns.
-/

namespace TokenInvalidator

/-! ## The fragment of regular expressions used by `tokenRegex` -/

/-- One member of a bracketed character class. -/
inductive ClassItem where
  | range (lo hi : Char)
  | digit
  | word
  | single (c : Char)

/-- Whether a class member accepts a character: `lo-hi`, `\d` (ASCII digits),
`\w` (ASCII letters, digits, underscore), or one literal character. -/
def ClassItem.accepts : ClassItem → Char → Bool
  | .range lo hi, c => decide (lo ≤ c) && decide (c ≤ hi)
  | .digit, c => decide ('0' ≤ c) && decide (c ≤ '9')
  | .word, c =>
      (decide ('0' ≤ c) && decide (c ≤ '9')) || (decide ('A' ≤ c) && decide (c ≤ 'Z'))
        || (decide ('a' ≤ c) && decide (c ≤ 'z')) || decide (c = '_')
  | .single x, c => decide (c = x)

/-- A single-character matcher: a bracketed class or an escaped literal. -/
inductive Atom where
  | cls (items : List ClassItem)
  | lit (c : Char)

/-- Whether an atom accepts a character. -/
def Atom.accepts : Atom → Char → Bool
  | .cls items, c => items.any fun i => i.accepts c
  | .lit x, c => decide (c = x)

/-- An atom with its repetition count `{count}` (1 when there is no count). -/
structure Piece where
  atom : Atom
  count : Nat

/-- A compiled pattern: a concatenation of counted atoms. -/
abbrev Regexp := List Piece

/-- Consume exactly `k` characters accepted by `a`; the remaining input on success. -/
def matchPiece (a : Atom) : Nat → List Char → Option (List Char)
  | 0, cs => some cs
  | _ + 1, [] => none
  | k + 1, c :: cs => if a.accepts c then matchPiece a k cs else none

/-- Match the pattern at the very start of the input; the number of characters
consumed on success. -/
def matchHere : Regexp → List Char → Option Nat
  | [], _ => some 0
  | p :: ps, cs =>
      match matchPiece p.atom p.count cs with
      | none => none
      | some rest =>
          match matchHere ps rest with
          | none => none
          | some l => some (p.count + l)

/-- Leftmost match in `cs`, whose first character has index `q` in the whole text. -/
def searchFrom (re : Regexp) : List Char → Nat → Option (Nat × Nat)
  | [], q =>
      match matchHere re [] with
      | some l => some (q, q + l)
      | none => none
  | c :: cs, q =>
      match matchHere re (c :: cs) with
      | some l => some (q, q + l)
      | none => searchFrom re cs (q + 1)

/-- The unanchored search of `regexp`: the leftmost match starting at or after `pos`. -/
def doExecute (re : Regexp) (s : List Char) (pos : Nat) : Option (Nat × Nat) :=
  searchFrom re (s.drop pos) pos

/-- The loop of `(*Regexp).allMatches`, run for at most `fuel` iterations, with
loop variables `pos`, `i` and `prevMatchEnd` (`none` is Go's `-1`). -/
def allMatchesLoop (re : Regexp) (s : List Char) (n : Nat) :
    Nat → Nat → Nat → Option Nat → List (Nat × Nat)
  | 0, _, _, _ => []
  | fuel + 1, pos, i, prevMatchEnd =>
      if i < n ∧ pos ≤ s.length then
        match doExecute re s pos with
        | none => []
        | some (m0, m1) =>
            let accept : Bool := !(decide (m1 = pos) && decide (some m0 = prevMatchEnd))
            let pos' : Nat :=
              if m1 = pos then (if pos < s.length then pos + 1 else s.length + 1) else m1
            if accept then (m0, m1) :: allMatchesLoop re s n fuel pos' (i + 1) (some m1)
            else allMatchesLoop re s n fuel pos' i (some m1)
      else []

/-- All successive matches of `(*Regexp).allMatches`: `pos` grows in every
iteration and the loop stops once it exceeds the length, so `length + 2`
iterations are never exhausted. -/
def allMatches (re : Regexp) (s : List Char) (n : Nat) : List (Nat × Nat) :=
  allMatchesLoop re s n (s.length + 2) 0 0 none

/-- The substring `s[m0:m1]`. -/
def slice (s : List Char) (m0 m1 : Nat) : List Char :=
  (s.drop m0).take (m1 - m0)

/-- Method `(*Regexp).FindAllString`: a negative `n` means `len(s) + 1`; the result is
the (nil, here empty) list when nothing matches. -/
def FindAllString (re : Regexp) (s : String) (n : Int) : List String :=
  let limit : Nat := if n < 0 then s.utf8ByteSize + 1 else n.toNat
  (allMatches re s.data limit).map fun m => String.mk (slice s.data m.1 m.2)

/-! ## Package-level variables -/

/-- The parsed pattern `[A-Za-z\d]{24}\.[\w-]{6}\.[\w-]{27}`. -/
def tokenRegex : Regexp :=
  [ ⟨.cls [.range 'A' 'Z', .range 'a' 'z', .digit], 24⟩,
    ⟨.lit '.', 1⟩,
    ⟨.cls [.word, .single '-'], 6⟩,
    ⟨.lit '.', 1⟩,
    ⟨.cls [.word, .single '-'], 27⟩ ]

/-- Detector: `tokenRegex.FindAllString(content, -1)`. -/
def Detector (text : String) : List String :=
  FindAllString tokenRegex text (-1)


/-- The package-level variables of `bot.go`. -/
structure Globals where
  tokenRegex : Regexp
  gistApiURL : String
  gistApiToken : String

/-- The initial values of the package-level variables; `GIST_API_TOKEN` is the
value of that environment variable at start-up. -/
def initGlobals (GIST_API_TOKEN : String) : Globals :=
  { tokenRegex := tokenRegex
    gistApiURL := "https://api.github.com/gists"
    gistApiToken := GIST_API_TOKEN }

/-! ## Payload and reply types -/

/-- The struct `Tokens`. -/
structure Tokens where
  Content : String
deriving DecidableEq

/-- The struct `Files`. -/
structure Files where
  Tokens : Tokens
deriving DecidableEq

/-- The struct `TokenPayload`. -/
structure TokenPayload where
  Description : String
  Public : Bool
  Files : Files
deriving DecidableEq

/-- The struct `GistResponse`. -/
structure GistResponse where
  URL : String
deriving DecidableEq

/-- A JSON document, as far as the payload needs it. -/
inductive JsonValue where
  | str (s : String)
  | bool (b : Bool)
  | obj (fields : List (String × JsonValue))

/-- JSON object of `Tokens`, keyed by its struct tag. -/
def Tokens.toJson (t : Tokens) : JsonValue :=
  .obj [("content", .str t.Content)]

/-- JSON object of `Files`, keyed by its struct tag. -/
def Files.toJson (f : Files) : JsonValue :=
  .obj [("tokens.txt", f.Tokens.toJson)]

/-- JSON object of `TokenPayload`, keyed by its struct tags. -/
def TokenPayload.toJson (p : TokenPayload) : JsonValue :=
  .obj [("description", .str p.Description), ("public", .bool p.Public),
    ("files", p.Files.toJson)]

/-- A `snowflake.ID`. -/
abbrev Snowflake := Nat

/-- The part of `discord.Message` the handler reads. -/
structure Message where
  Content : String
deriving DecidableEq

/-- The part of `events.GuildMessageCreate` the handler reads. -/
structure GuildMessageCreate where
  MessageID : Snowflake
  Message : Message
  ChannelID : Snowflake
  GuildID : Snowflake
deriving DecidableEq

/-- The struct `discord.MessageReference`; a nil pointer is `none`. -/
structure MessageReference where
  MessageID : Option Snowflake
  ChannelID : Option Snowflake
  GuildID : Option Snowflake
  FailIfNotExists : Bool
deriving DecidableEq

/-- The fields of `discord.MessageCreate` the handler sets; all others keep
their zero value. -/
structure MessageCreate where
  Content : String
  MessageReference : Option MessageReference
deriving DecidableEq

/-- An `http.Request`: method, URL, body and header lines in the order added. -/
structure Request where
  Method : String
  URL : String
  Body : String
  Header : List (String × String)
deriving DecidableEq

/-- The call `r.Header.Add(key, value)`. -/
def Request.headerAdd (r : Request) (key value : String) : Request :=
  { r with Header := r.Header ++ [(key, value)] }

/-- The part of an `http.Response` the handler reads. -/
structure Response where
  StatusCode : Int
  Body : String
deriving DecidableEq

/-- The collaborators of the handler: each field answers one outgoing call with
its result or its error. -/
structure World where
  jsonMarshal : JsonValue → Except String String
  httpNewRequest : String → String → String → Except String Request
  httpDo : Request → Except String Response
  jsonDecode : String → Except String GistResponse
  createMessage : Snowflake → MessageCreate → Option String

/-- One outgoing call of the handler. -/
inductive Call where
  | jsonMarshal (v : JsonValue)
  | httpNewRequest (method url body : String)
  | httpDo (r : Request)
  | jsonDecode (body : String)
  | createMessage (channelID : Snowflake) (m : MessageCreate)
  | logError (msg err : String)
  | logErrorf (format : String) (statusCode : Int) (err : String)
  | bodyClose

/-- The function `strings.Join`: nothing for no element, the element itself for
one, otherwise the first element and then the separator before every further
element. -/
def Join (elems : List String) (sep : String) : String :=
  match elems with
  | [] => ""
  | [e] => e
  | e :: rest => rest.foldl (fun b s => b ++ sep ++ s) e

/-- Expansion of the first `%s` of a format by the operand. -/
def expandVerb : List Char → List Char → List Char
  | [], _ => []
  | '%' :: 's' :: rest, arg => arg ++ rest
  | c :: rest, arg => c :: expandVerb rest arg

/-- The function `fmt.Sprintf` for a format with one `%s` verb and one string operand. -/
def Sprintf (format arg : String) : String :=
  String.mk (expandVerb format.data arg.data)

/-- The composite literal `&TokenPayload{...}` of `onMessage`. -/
def tokenPayload (matches' : List String) : TokenPayload :=
  { Description := "Token Invalidator bot by cane#8081."
    Public := true
    Files := { Tokens := { Content := Join matches' "\n" } } }

/-- The three `r.Header.Add` lines of `onMessage`. -/
def addHeaders (g : Globals) (r : Request) : Request :=
  ((r.headerAdd "Authorization" g.gistApiToken).headerAdd
    "Content-Type" "application/vnd.github.v3+json").headerAdd
    "User-Agent" "Token Invalidator bot"

/-- The literal `discord.MessageCreate{...}` of `onMessage`. -/
def replyMessage (event : GuildMessageCreate) (response : GistResponse) : MessageCreate :=
  { Content := Sprintf "Tokens have been detected and sent to <%s> to be invalidated." response.URL
    MessageReference := some
      { MessageID := some event.MessageID
        ChannelID := none
        GuildID := some event.GuildID
        FailIfNotExists := false } }

/-- The handler `onMessage`: the package-level variables after the call (the
handler assigns none of them) and the outgoing calls in order, the deferred
`rs.Body.Close()` last. -/
def onMessage (g : Globals) (w : World) (event : GuildMessageCreate) : Globals × List Call :=
  let content := event.Message.Content
  let matches' := FindAllString g.tokenRegex content (-1)
  if matches' ≠ [] then
    let payload := (tokenPayload matches').toJson
    (g, Call.jsonMarshal payload ::
      match w.jsonMarshal payload with
      | .error err =>
          [Call.logError "there was an error while marshalling a token payload: " err]
      | .ok body =>
          Call.httpNewRequest "POST" g.gistApiURL body ::
          match w.httpNewRequest "POST" g.gistApiURL body with
          | .error err =>
              [Call.logError "there was an error while creating a new request: " err]
          | .ok r0 =>
              let r := addHeaders g r0
              Call.httpDo r ::
              match w.httpDo r with
              | .error err =>
                  [Call.logError "there was an error while running a request: " err]
              | .ok rs =>
                  Call.jsonDecode rs.Body ::
                  match w.jsonDecode rs.Body with
                  | .error err =>
                      [Call.logErrorf "there was an error while decoding the response (%d): "
                        rs.StatusCode err, Call.bodyClose]
                  | .ok response =>
                      let m := replyMessage event response
                      Call.createMessage event.ChannelID m ::
                      match w.createMessage event.ChannelID m with
                      | some err =>
                          [Call.logError "there was an error while creating a message: " err,
                            Call.bodyClose]
                      | none => [Call.bodyClose])
  else (g, [])

/-- The listener at work: the gateway hands the events to `onMessage` one after
another, each answered by its own collaborators. -/
def dispatch (g : Globals) : List (World × GuildMessageCreate) → Globals × List (List Call)
  | [] => (g, [])
  | (w, event) :: rest =>
      let r := onMessage g w event
      let r' := dispatch r.1 rest
      (r'.1, r.2 :: r'.2)

/-- The replies among the outgoing calls: channel and message of each
`CreateMessage`. -/
def replies : List Call → List (Snowflake × MessageCreate)
  | [] => []
  | Call.createMessage channelID m :: rest => (channelID, m) :: replies rest
  | _ :: rest => replies rest

/-- The requests among the outgoing calls that were handed to the HTTP client. -/
def requests : List Call → List Request
  | [] => []
  | Call.httpDo r :: rest => r :: requests rest
  | _ :: rest => requests rest

/-- The decode failures among the outgoing calls: the status code logged with each. -/
def decodeFailures : List Call → List (Int × String)
  | [] => []
  | Call.logErrorf _ statusCode err :: rest => (statusCode, err) :: decodeFailures rest
  | _ :: rest => decodeFailures rest

/-- Collaborators that all succeed: encoding and request construction work, the
paste service answers `rs`, its body decodes to `decoded`, and the reply is
delivered. -/
def sampleWorld (rs : Response) (decoded : Except String GistResponse) : World :=
  { jsonMarshal := fun _ => .ok "payload"
    httpNewRequest := fun method url body => .ok ⟨method, url, body, []⟩
    httpDo := fun _ => .ok rs
    jsonDecode := fun _ => decoded
    createMessage := fun _ _ => none }

/-- Every line of the list preceded by a newline. -/
def tailLines : List (List Char) → List Char
  | [] => []
  | t :: rest => '\n' :: (t ++ tailLines rest)

/-- The file content of a paste in words: the first line, then for every further
line a newline and the line. -/
def joinedLines : List (List Char) → List Char
  | [] => []
  | t :: rest => t ++ tailLines rest

/-! ## The pattern in words -/

/-- An ASCII letter or digit: the class `[A-Za-z\d]`. -/
def IsAlnum (c : Char) : Prop :=
  ('A' ≤ c ∧ c ≤ 'Z') ∨ ('a' ≤ c ∧ c ≤ 'z') ∨ ('0' ≤ c ∧ c ≤ '9')

/-- A word character: an ASCII letter, digit or underscore (the class `\w`). -/
def IsWord (c : Char) : Prop :=
  IsAlnum c ∨ c = '_'

/-- A word character or a hyphen: the class `[\w-]`. -/
def IsWordOrHyphen (c : Char) : Prop :=
  IsWord c ∨ c = '-'

instance (c : Char) : Decidable (IsAlnum c) := by
  unfold IsAlnum
  infer_instance

instance (c : Char) : Decidable (IsWord c) := by
  unfold IsWord
  infer_instance

instance (c : Char) : Decidable (IsWordOrHyphen c) := by
  unfold IsWordOrHyphen
  infer_instance

/-- The shape the pattern of `tokenRegex` describes: 24 characters of `[A-Za-z\d]`,
a dot, 6 characters of `[\w-]`, a dot, 27 characters of `[\w-]`. -/
def TokenShaped (w : List Char) : Prop :=
  ∃ a b c : List Char, w = a ++ '.' :: (b ++ '.' :: c) ∧
    a.length = 24 ∧ (∀ x ∈ a, IsAlnum x) ∧
    b.length = 6 ∧ (∀ x ∈ b, IsWordOrHyphen x) ∧
    c.length = 27 ∧ (∀ x ∈ c, IsWordOrHyphen x)

/-- The narrower shape with word characters only in the second and third
segment: 24 alphanumeric characters, a dot, 6 word characters, a dot,
27 word characters. -/
def StrictShaped (w : List Char) : Prop :=
  ∃ a b c : List Char, w = a ++ '.' :: (b ++ '.' :: c) ∧
    a.length = 24 ∧ (∀ x ∈ a, IsAlnum x) ∧
    b.length = 6 ∧ (∀ x ∈ b, IsWord x) ∧
    c.length = 27 ∧ (∀ x ∈ c, IsWord x)

/-- A pattern-shaped substring of `s` starts at index `q`. -/
def ShapedAt (s : List Char) (q : Nat) : Prop :=
  ∃ w, TokenShaped w ∧ w <+: s.drop q

/-- The matches a left-to-right scan of `s` from `pos` finds: each time the
leftmost pattern-shaped substring at or after the current position, resuming
just past its end. -/
inductive Scans (s : List Char) : Nat → List (Nat × Nat) → Prop
  | done {pos : Nat} : (∀ r, pos ≤ r → ¬ ShapedAt s r) → Scans s pos []
  | step {pos q : Nat} {rest : List (Nat × Nat)} :
      pos ≤ q → ShapedAt s q → (∀ r, pos ≤ r → r < q → ¬ ShapedAt s r) →
      Scans s (q + 59) rest → Scans s pos ((q, q + 59) :: rest)

/-! ## The matcher against the pattern in words -/

theorem matchPiece_eq_some (a : Atom) (k : Nat) (cs rest : List Char) :
    matchPiece a k cs = some rest ↔
      ∃ pre, cs = pre ++ rest ∧ pre.length = k ∧ ∀ x ∈ pre, a.accepts x = true := by
  induction k generalizing cs with
  | zero =>
    simp only [matchPiece, Option.some.injEq]
    constructor
    · rintro rfl
      exact ⟨[], rfl, rfl, by simp⟩
    · rintro ⟨pre, h, hl, -⟩
      have hp : pre = [] := List.length_eq_zero.mp hl
      subst hp
      simpa using h
  | succ k ih =>
    cases cs with
    | nil =>
      simp only [matchPiece]
      constructor
      · intro h
        cases h
      · rintro ⟨pre, h, hl, -⟩
        have := congrArg List.length h
        simp at this
        omega
    | cons c cs =>
      simp only [matchPiece]
      split
      · rename_i hc
        rw [ih]
        constructor
        · rintro ⟨pre, rfl, hl, hp⟩
          refine ⟨c :: pre, rfl, by simp [hl], ?_⟩
          intro x hx
          rcases List.mem_cons.mp hx with rfl | hx
          · exact hc
          · exact hp x hx
        · rintro ⟨pre, h, hl, hp⟩
          cases pre with
          | nil => simp at hl
          | cons x pre =>
            simp only [List.cons_append, List.cons.injEq] at h
            obtain ⟨rfl, rfl⟩ := h
            exact ⟨pre, rfl, by simpa using hl, fun y hy => hp y (List.mem_cons_of_mem _ hy)⟩
      · rename_i hc
        constructor
        · intro h
          cases h
        · rintro ⟨pre, h, hl, hp⟩
          cases pre with
          | nil => simp at hl
          | cons x pre =>
            simp only [List.cons_append, List.cons.injEq] at h
            obtain ⟨rfl, rfl⟩ := h
            exact absurd (hp c (List.mem_cons_self _ _)) hc

theorem matchHere_cons (p : Piece) (ps : Regexp) (cs : List Char) (l : Nat) :
    matchHere (p :: ps) cs = some l ↔
      ∃ pre rest l', cs = pre ++ rest ∧ pre.length = p.count ∧
        (∀ x ∈ pre, p.atom.accepts x = true) ∧ matchHere ps rest = some l' ∧
        l = p.count + l' := by
  simp only [matchHere]
  constructor
  · intro h
    cases hp : matchPiece p.atom p.count cs with
    | none => simp [hp] at h
    | some rest =>
      simp only [hp] at h
      cases hm : matchHere ps rest with
      | none => simp [hm] at h
      | some l' =>
        simp only [hm, Option.some.injEq] at h
        obtain ⟨pre, h1, h2, h3⟩ := (matchPiece_eq_some _ _ _ _).mp hp
        exact ⟨pre, rest, l', h1, h2, h3, hm, h.symm⟩
  · rintro ⟨pre, rest, l', h1, h2, h3, hm, rfl⟩
    have hp : matchPiece p.atom p.count cs = some rest :=
      (matchPiece_eq_some _ _ _ _).mpr ⟨pre, h1, h2, h3⟩
    simp [hp, hm]

theorem accepts_alnum (c : Char) :
    (Atom.cls [.range 'A' 'Z', .range 'a' 'z', .digit]).accepts c = true ↔ IsAlnum c := by
  simp [Atom.accepts, ClassItem.accepts, IsAlnum]

theorem accepts_wordOrHyphen (c : Char) :
    (Atom.cls [.word, .single '-']).accepts c = true ↔ IsWordOrHyphen c := by
  simp only [Atom.accepts, ClassItem.accepts, IsWordOrHyphen, IsWord, IsAlnum, List.any_cons,
    List.any_nil, Bool.or_false, Bool.or_eq_true, Bool.and_eq_true, decide_eq_true_eq]
  tauto

theorem accepts_dot (c : Char) : (Atom.lit '.').accepts c = true ↔ c = '.' := by
  simp [Atom.accepts]

theorem eq_dot_of_accepts {pre : List Char} (hl : pre.length = 1)
    (h : ∀ x ∈ pre, (Atom.lit '.').accepts x = true) : pre = ['.'] := by
  match pre, hl, h with
  | [x], _, h =>
    have := (accepts_dot x).mp (h x (List.mem_singleton.mpr rfl))
    rw [this]

theorem matchHere_tokenRegex (cs : List Char) (l : Nat) :
    matchHere tokenRegex cs = some l ↔ l = 59 ∧ ∃ w, TokenShaped w ∧ w <+: cs := by
  unfold tokenRegex
  constructor
  · intro h
    obtain ⟨a, r1, l1, rfl, ha, hA, h1, rfl⟩ := (matchHere_cons _ _ _ _).mp h
    obtain ⟨d1, r2, l2, rfl, hd1, hD1, h2, rfl⟩ := (matchHere_cons _ _ _ _).mp h1
    obtain ⟨b, r3, l3, rfl, hb, hB, h3, rfl⟩ := (matchHere_cons _ _ _ _).mp h2
    obtain ⟨d2, r4, l4, rfl, hd2, hD2, h4, rfl⟩ := (matchHere_cons _ _ _ _).mp h3
    obtain ⟨c, r5, l5, rfl, hc, hC, h5, rfl⟩ := (matchHere_cons _ _ _ _).mp h4
    simp only [matchHere, Option.some.injEq] at h5
    subst h5
    have e1 := eq_dot_of_accepts hd1 hD1
    have e2 := eq_dot_of_accepts hd2 hD2
    subst e1 e2
    refine ⟨rfl, a ++ '.' :: (b ++ '.' :: c), ⟨a, b, c, rfl, ha,
      fun x hx => (accepts_alnum x).mp (hA x hx), hb,
      fun x hx => (accepts_wordOrHyphen x).mp (hB x hx), hc,
      fun x hx => (accepts_wordOrHyphen x).mp (hC x hx)⟩, ⟨r5, by simp⟩⟩
  · rintro ⟨rfl, w, ⟨a, b, c, rfl, ha, hA, hb, hB, hc, hC⟩, ⟨rest, rfl⟩⟩
    refine (matchHere_cons _ _ _ _).mpr ⟨a, ['.'] ++ (b ++ (['.'] ++ (c ++ rest))), 35,
      by simp, ha, fun x hx => (accepts_alnum x).mpr (hA x hx), ?_, rfl⟩
    refine (matchHere_cons _ _ _ _).mpr ⟨['.'], b ++ (['.'] ++ (c ++ rest)), 34,
      rfl, rfl, by simp [Atom.accepts], ?_, rfl⟩
    refine (matchHere_cons _ _ _ _).mpr ⟨b, ['.'] ++ (c ++ rest), 28,
      rfl, hb, fun x hx => (accepts_wordOrHyphen x).mpr (hB x hx), ?_, rfl⟩
    refine (matchHere_cons _ _ _ _).mpr ⟨['.'], c ++ rest, 27,
      rfl, rfl, by simp [Atom.accepts], ?_, rfl⟩
    refine (matchHere_cons _ _ _ _).mpr ⟨c, rest, 0,
      rfl, hc, fun x hx => (accepts_wordOrHyphen x).mpr (hC x hx), rfl, rfl⟩

theorem TokenShaped.length_eq {w : List Char} (h : TokenShaped w) : w.length = 59 := by
  obtain ⟨a, b, c, rfl, ha, -, hb, -, hc, -⟩ := h
  simp [ha, hb, hc]

theorem shapedAt_iff_match (s : List Char) (q : Nat) :
    ShapedAt s q ↔ matchHere tokenRegex (s.drop q) = some 59 := by
  rw [matchHere_tokenRegex]
  simp [ShapedAt]

theorem tokenShaped_iff_match (w : List Char) :
    TokenShaped w ↔ matchHere tokenRegex w = some 59 ∧ w.length = 59 := by
  rw [matchHere_tokenRegex]
  constructor
  · intro h
    exact ⟨⟨rfl, w, h, List.prefix_refl w⟩, h.length_eq⟩
  · rintro ⟨⟨-, v, hv, hp⟩, hl⟩
    have : v = w := hp.eq_of_length (by rw [hv.length_eq, hl])
    exact this ▸ hv

theorem ShapedAt.bound {s : List Char} {q : Nat} (h : ShapedAt s q) : q + 59 ≤ s.length := by
  obtain ⟨w, hw, hp⟩ := h
  have h1 := hp.length_le
  rw [hw.length_eq, List.length_drop] at h1
  omega

theorem ShapedAt.slice_shaped {s : List Char} {q : Nat} (h : ShapedAt s q) :
    TokenShaped (slice s q (q + 59)) := by
  obtain ⟨w, hw, hp⟩ := h
  have h1 := List.prefix_iff_eq_take.mp hp
  rw [hw.length_eq] at h1
  have h2 : slice s q (q + 59) = w := by
    unfold slice
    rw [h1, Nat.add_sub_cancel_left]
  rw [h2]
  exact hw

theorem shapedAt_middle {pre t post : List Char} (ht : TokenShaped t) :
    ShapedAt (pre ++ t ++ post) pre.length := by
  refine ⟨t, ht, ?_⟩
  rw [List.append_assoc, List.drop_left]
  exact List.prefix_append t post

theorem slice_middle (pre t post : List Char) :
    slice (pre ++ t ++ post) pre.length (pre.length + t.length) = t := by
  unfold slice
  rw [List.append_assoc, List.drop_left, Nat.add_sub_cancel_left, List.take_left]

/-! ## The search and the loop of `allMatches` -/

theorem searchFrom_spec (re : Regexp) (cs : List Char) (q : Nat) :
    (searchFrom re cs q = none ∧ ∀ j, j ≤ cs.length → matchHere re (cs.drop j) = none) ∨
    (∃ k l, searchFrom re cs q = some (q + k, q + k + l) ∧ k ≤ cs.length ∧
      matchHere re (cs.drop k) = some l ∧ ∀ j, j < k → matchHere re (cs.drop j) = none) := by
  induction cs generalizing q with
  | nil =>
    cases hm : matchHere re [] with
    | none =>
      left
      refine ⟨by simp [searchFrom, hm], ?_⟩
      intro j _
      simpa using hm
    | some l =>
      right
      exact ⟨0, l, by simp [searchFrom, hm], Nat.le_refl _, by simpa using hm,
        fun j hj => absurd hj (Nat.not_lt_zero j)⟩
  | cons c cs ih =>
    cases hm : matchHere re (c :: cs) with
    | some l =>
      right
      exact ⟨0, l, by simp [searchFrom, hm], Nat.zero_le _, by simpa using hm,
        fun j hj => absurd hj (Nat.not_lt_zero j)⟩
    | none =>
      rcases ih (q + 1) with ⟨h1, h2⟩ | ⟨k, l, h1, h2, h3, h4⟩
      · left
        refine ⟨by simp [searchFrom, hm, h1], ?_⟩
        intro j hj
        cases j with
        | zero => simpa using hm
        | succ j =>
          rw [List.drop_succ_cons]
          exact h2 j (by simpa using hj)
      · right
        refine ⟨k + 1, l, ?_, by simpa using h2, by simpa using h3, ?_⟩
        · have e : q + 1 + k = q + (k + 1) := by omega
          rw [e] at h1
          simp [searchFrom, hm, h1]
        · intro j hj
          cases j with
          | zero => simpa using hm
          | succ j =>
            rw [List.drop_succ_cons]
            exact h4 j (by omega)

theorem doExecute_tokenRegex (s : List Char) (pos : Nat) :
    (doExecute tokenRegex s pos = none ∧ ∀ r, pos ≤ r → ¬ ShapedAt s r) ∨
    (∃ q, doExecute tokenRegex s pos = some (q, q + 59) ∧ pos ≤ q ∧ ShapedAt s q ∧
      ∀ r, pos ≤ r → r < q → ¬ ShapedAt s r) := by
  unfold doExecute
  rcases searchFrom_spec tokenRegex (s.drop pos) pos with ⟨h1, h2⟩ | ⟨k, l, h1, -, h3, h4⟩
  · left
    refine ⟨h1, ?_⟩
    intro r hr hsh
    have hb := hsh.bound
    have := h2 (r - pos) (by rw [List.length_drop]; omega)
    rw [List.drop_drop, Nat.add_sub_cancel' hr] at this
    rw [shapedAt_iff_match, this] at hsh
    cases hsh
  · right
    rw [List.drop_drop] at h3
    obtain ⟨rfl, hw⟩ := (matchHere_tokenRegex _ _).mp h3
    refine ⟨pos + k, h1, Nat.le_add_right _ _, hw, ?_⟩
    intro r hr hlt hsh
    have := h4 (r - pos) (by omega)
    rw [List.drop_drop, Nat.add_sub_cancel' hr] at this
    rw [shapedAt_iff_match, this] at hsh
    cases hsh

theorem scans_allMatchesLoop (s : List Char) (n fuel : Nat) :
    ∀ (pos i : Nat) (prev : Option Nat), pos ≤ s.length → s.length + 1 ≤ fuel + pos →
      i + (s.length - pos) < n →
      Scans s pos (allMatchesLoop tokenRegex s n fuel pos i prev) := by
  induction fuel with
  | zero =>
    intro pos i prev h1 h2 _
    omega
  | succ fuel ih =>
    intro pos i prev h1 h2 h3
    have hcond : i < n ∧ pos ≤ s.length := ⟨by omega, h1⟩
    rcases doExecute_tokenRegex s pos with ⟨hd, hnone⟩ | ⟨q, hd, hq, hsh, hleft⟩
    · rw [allMatchesLoop, if_pos hcond, hd]
      exact Scans.done hnone
    · have hb := hsh.bound
      have hne : ¬ (q + 59 = pos) := by omega
      rw [allMatchesLoop, if_pos hcond, hd]
      simp only [hne, decide_False, Bool.false_and, Bool.not_false, if_true, if_false]
      exact Scans.step hq hsh hleft
        (ih (q + 59) (i + 1) (some (q + 59)) hb (by omega) (by omega))

theorem Scans.unique {s : List Char} {pos : Nat} {l1 l2 : List (Nat × Nat)}
    (h1 : Scans s pos l1) (h2 : Scans s pos l2) : l1 = l2 := by
  induction h1 generalizing l2 with
  | done hn =>
    cases h2 with
    | done _ => rfl
    | step hq hsh _ _ => exact absurd hsh (hn _ hq)
  | @step pos q rest hq hsh hleft _ ih =>
    cases h2 with
    | done hn => exact absurd hsh (hn _ hq)
    | @step _ q' rest' hq' hsh' hleft' hrest' =>
      have e : q = q' := by
        rcases Nat.lt_trichotomy q q' with h | h | h
        · exact absurd hsh (hleft' q hq h)
        · exact h
        · exact absurd hsh' (hleft q' hq' h)
      subst e
      rw [ih hrest']

theorem Scans.mem {s : List Char} {pos : Nat} {l : List (Nat × Nat)} (h : Scans s pos l) :
    ∀ m ∈ l, pos ≤ m.1 ∧ m.2 = m.1 + 59 ∧ ShapedAt s m.1 := by
  induction h with
  | done _ => simp
  | step hq hsh _ _ ih =>
    intro m hm
    rcases List.mem_cons.mp hm with rfl | hm
    · exact ⟨hq, rfl, hsh⟩
    · obtain ⟨h1, h2, h3⟩ := ih m hm
      exact ⟨by omega, h2, h3⟩

theorem Scans.pairwise {s : List Char} {pos : Nat} {l : List (Nat × Nat)} (h : Scans s pos l) :
    l.Pairwise fun x y => x.1 < y.1 ∧ x.2 ≤ y.1 := by
  induction h with
  | done _ => exact List.Pairwise.nil
  | step _ _ _ hrest ih =>
    refine List.Pairwise.cons (fun m hm => ?_) ih
    have := (hrest.mem m hm).1
    constructor
    · show _ < m.1
      omega
    · exact this

theorem Scans.covers {s : List Char} {pos : Nat} {l : List (Nat × Nat)} (h : Scans s pos l) :
    ∀ r, pos ≤ r → ShapedAt s r → ∃ m ∈ l, m.1 ≤ r ∧ r < m.2 := by
  induction h with
  | done hn =>
    intro r hr hsh
    exact absurd hsh (hn r hr)
  | @step pos q rest hq hsh hleft _ ih =>
    intro r hr hr'
    by_cases hlt : r < q + 59
    · refine ⟨(q, q + 59), List.mem_cons_self _ _, ?_, hlt⟩
      by_contra hc
      exact hleft r hr (by simpa using hc) hr'
    · obtain ⟨m, hm, h1, h2⟩ := ih r (by omega) hr'
      exact ⟨m, List.mem_cons_of_mem _ hm, h1, h2⟩

theorem length_le_utf8ByteSize (text : String) : text.data.length ≤ text.utf8ByteSize := by
  cases text with
  | mk cs =>
    simp only [String.utf8ByteSize_mk]
    induction cs with
    | nil => simp
    | cons c cs ih =>
      have := Char.utf8Size_pos c
      simp only [List.length_cons, String.utf8Len_cons]
      omega

theorem scans_allMatches (text : String) :
    Scans text.data 0 (allMatches tokenRegex text.data (text.utf8ByteSize + 1)) := by
  have := length_le_utf8ByteSize text
  exact scans_allMatchesLoop _ _ _ 0 0 none (Nat.zero_le _) (by omega) (by omega)

theorem Detector_eq (text : String) :
    Detector text = (allMatches tokenRegex text.data (text.utf8ByteSize + 1)).map
      fun m => String.mk (slice text.data m.1 m.2) := by
  simp [Detector, FindAllString]

theorem Detector_of_scans {text : String} {l : List (Nat × Nat)} (h : Scans text.data 0 l) :
    Detector text = l.map fun m => String.mk (slice text.data m.1 m.2) := by
  rw [Detector_eq, (scans_allMatches text).unique h]

theorem Scans.split {s : List Char} {pos : Nat} {l : List (Nat × Nat)} (h : Scans s pos l) :
    ∀ q, pos ≤ q → ShapedAt s q → (∀ r, pos ≤ r → r < q → ShapedAt s r → r + 59 ≤ q) →
      ∃ l1 l2, l = l1 ++ (q, q + 59) :: l2 ∧ Scans s (q + 59) l2 := by
  induction h with
  | done hn =>
    intro q hq hsh _
    exact absurd hsh (hn q hq)
  | @step pos q0 rest hq0 hsh0 hleft hrest ih =>
    intro q hq hsh hclear
    rcases Nat.lt_trichotomy q q0 with hlt | heq | hgt
    · exact absurd hsh (hleft q hq hlt)
    · subst heq
      exact ⟨[], rest, rfl, hrest⟩
    · have hle := hclear q0 hq0 hgt hsh0
      obtain ⟨l1, l2, e, h2⟩ := ih q hle hsh (fun r hr hrq => hclear r (by omega) hrq)
      exact ⟨(q0, q0 + 59) :: l1, l2, by rw [e]; rfl, h2⟩

theorem Detector_mem_span {text t : String} (ht : t ∈ Detector text) :
    ∃ q, ShapedAt text.data q ∧ t = String.mk (slice text.data q (q + 59)) := by
  rw [Detector_of_scans (scans_allMatches text)] at ht
  obtain ⟨m, hm, rfl⟩ := List.mem_map.mp ht
  obtain ⟨-, h2, h3⟩ := (scans_allMatches text).mem m hm
  exact ⟨m.1, h3, by rw [h2]⟩

theorem Detector_mem_shaped {text t : String} (ht : t ∈ Detector text) : TokenShaped t.data := by
  obtain ⟨q, hq, rfl⟩ := Detector_mem_span ht
  exact hq.slice_shaped

theorem TokenShaped.token_chars {w : List Char} (h : TokenShaped w) :
    ∀ c ∈ w, IsAlnum c ∨ c = '_' ∨ c = '-' ∨ c = '.' := by
  obtain ⟨a, b, c, rfl, -, hA, -, hB, -, hC⟩ := h
  intro x hx
  simp only [List.mem_append, List.mem_cons] at hx
  rcases hx with hx | rfl | hx | rfl | hx
  · exact Or.inl (hA x hx)
  · exact Or.inr (Or.inr (Or.inr rfl))
  · rcases hB x hx with (h | h) | h
    · exact Or.inl h
    · exact Or.inr (Or.inl h)
    · exact Or.inr (Or.inr (Or.inl h))
  · exact Or.inr (Or.inr (Or.inr rfl))
  · rcases hC x hx with (h | h) | h
    · exact Or.inl h
    · exact Or.inr (Or.inl h)
    · exact Or.inr (Or.inr (Or.inl h))

theorem StrictShaped.strict_chars {w : List Char} (h : StrictShaped w) :
    ∀ c ∈ w, IsAlnum c ∨ c = '_' ∨ c = '.' := by
  obtain ⟨a, b, c, rfl, -, hA, -, hB, -, hC⟩ := h
  intro x hx
  simp only [List.mem_append, List.mem_cons] at hx
  rcases hx with hx | rfl | hx | rfl | hx
  · exact Or.inl (hA x hx)
  · exact Or.inr (Or.inr rfl)
  · rcases hB x hx with h | h
    · exact Or.inl h
    · exact Or.inr (Or.inl h)
  · exact Or.inr (Or.inr rfl)
  · rcases hC x hx with h | h
    · exact Or.inl h
    · exact Or.inr (Or.inl h)

theorem not_shapedAt_of_short {s : List Char} {q : Nat} (h : s.length < q + 59) :
    ¬ ShapedAt s q := fun hsh => by
  have := hsh.bound
  omega

/-! ## Detector -/

/-- C1: for every text the Detector output is the list of substrings at spans
that start at strictly increasing positions and do not overlap, every span holds
a pattern-shaped substring of the text, and every position at which a
pattern-shaped substring starts lies in one of the spans. -/
theorem C1_detector_all_matches (text : String) :
    ∃ spans : List (Nat × Nat),
      Detector text = spans.map (fun m => String.mk (slice text.data m.1 m.2)) ∧
      spans.Pairwise (fun x y => x.1 < y.1 ∧ x.2 ≤ y.1) ∧
      (∀ m ∈ spans, m.1 < m.2 ∧ m.2 ≤ text.data.length ∧
        TokenShaped (slice text.data m.1 m.2)) ∧
      (∀ q, ShapedAt text.data q → ∃ m ∈ spans, m.1 ≤ q ∧ q < m.2) := by
  have h := scans_allMatches text
  refine ⟨_, Detector_of_scans h, h.pairwise, ?_, fun q hq => h.covers q (Nat.zero_le _) hq⟩
  intro m hm
  obtain ⟨-, h2, h3⟩ := h.mem m hm
  have hb := h3.bound
  refine ⟨by omega, by omega, ?_⟩
  rw [h2]
  exact h3.slice_shaped

/-- C2, amended: every string the Detector returns is 24 characters of
`[A-Za-z\d]`, a dot, 6 characters of `[\w-]`, a dot and 27 characters of
`[\w-]`; it has length 59 and holds only letters, digits, underscores, hyphens
and the two dots. -/
theorem C2_detector_shape (text t : String) (ht : t ∈ Detector text) :
    TokenShaped t.data ∧ t.length = 59 ∧
      ∀ c ∈ t.data, IsAlnum c ∨ c = '_' ∨ c = '-' ∨ c = '.' := by
  have h := Detector_mem_shaped ht
  exact ⟨h, h.length_eq, h.token_chars⟩

theorem forall_shapedAt_of_bounded {s : List Char} {P : Nat → Prop}
    (h : ∀ q, q < s.length → matchHere tokenRegex (s.drop q) = some 59 → P q) :
    ∀ q, ShapedAt s q → P q := by
  intro q hq
  have hb := hq.bound
  exact h q (by omega) ((shapedAt_iff_match s q).mp hq)

theorem tokenShaped_of_match {w : List Char}
    (h : matchHere tokenRegex w = some 59 ∧ w.length = 59) : TokenShaped w :=
  (tokenShaped_iff_match w).mpr h

set_option maxRecDepth 100000 in
/-- C2, witness: the one match of a short message has the amended shape. -/
theorem C2_detector_shape_witness :
    "abcd1234abcd1234abcd1234.ab-def.abcdefghijklmnopqrstuvwx-yz" ∈
        Detector "key: abcd1234abcd1234abcd1234.ab-def.abcdefghijklmnopqrstuvwx-yz!" ∧
      (TokenShaped "abcd1234abcd1234abcd1234.ab-def.abcdefghijklmnopqrstuvwx-yz".data ∧
        "abcd1234abcd1234abcd1234.ab-def.abcdefghijklmnopqrstuvwx-yz".length = 59 ∧
        ∀ c ∈ "abcd1234abcd1234abcd1234.ab-def.abcdefghijklmnopqrstuvwx-yz".data,
          IsAlnum c ∨ c = '_' ∨ c = '-' ∨ c = '.') :=
  ⟨by decide, C2_detector_shape
    "key: abcd1234abcd1234abcd1234.ab-def.abcdefghijklmnopqrstuvwx-yz!"
    "abcd1234abcd1234abcd1234.ab-def.abcdefghijklmnopqrstuvwx-yz" (by decide)⟩

set_option maxRecDepth 100000 in
/-- C2, counterexample: a text with hyphens in its second and third segment is
returned whole, although it is not 24 alphanumeric characters, a dot, 6 word
characters, a dot and 27 word characters, and holds a character that is no
letter, digit, underscore or dot. -/
theorem C2_hyphen_counterexample :
    Detector "abcd1234abcd1234abcd1234.ab-def.abcdefghijklmnopqrstuvwx-yz" =
        ["abcd1234abcd1234abcd1234.ab-def.abcdefghijklmnopqrstuvwx-yz"] ∧
      ¬ StrictShaped "abcd1234abcd1234abcd1234.ab-def.abcdefghijklmnopqrstuvwx-yz".data ∧
      ¬ (∀ c ∈ "abcd1234abcd1234abcd1234.ab-def.abcdefghijklmnopqrstuvwx-yz".data,
          IsAlnum c ∨ c = '_' ∨ c = '.') :=
  ⟨by decide, fun h => absurd h.strict_chars (by decide), by decide⟩

/-- C3: when a text `pre ++ t ++ post` holds the pattern-shaped `t` and a
pattern-shaped substring starts at no other position of it, the Detector
returns exactly `[t]`. -/
theorem C3_single_match (pre t post : String) (ht : TokenShaped t.data)
    (huniq : ∀ q, ShapedAt (pre ++ t ++ post).data q → q = pre.length) :
    Detector (pre ++ t ++ post) = [t] := by
  have hd : (pre ++ t ++ post).data = pre.data ++ t.data ++ post.data := by
    simp [String.data_append]
  have hl : pre.length = pre.data.length := rfl
  have hsc : Scans (pre ++ t ++ post).data 0 [(pre.length, pre.length + 59)] := by
    refine Scans.step (Nat.zero_le _) ?_ (fun r _ hlt hsh => ?_) (Scans.done fun r hr hsh => ?_)
    · rw [hd, hl]
      exact shapedAt_middle ht
    · have := huniq r hsh
      omega
    · have := huniq r hsh
      omega
  have hs : slice (pre ++ t ++ post).data pre.length (pre.length + 59) = t.data := by
    have := slice_middle pre.data t.data post.data
    rw [ht.length_eq] at this
    rw [hd, hl]
    exact this
  rw [Detector_of_scans hsc]
  simp only [List.map_cons, List.map_nil, hs]

set_option maxRecDepth 100000 in
/-- C3, witness: one token with letters, digits, underscores and dots directly
around it. -/
theorem C3_single_match_witness :
    TokenShaped "abcd1234abcd1234abcd1234.abcdef.abcdefghijklmnopqrstuvwxyz0".data ∧
      (∀ q, ShapedAt ("x1_." ++ "abcd1234abcd1234abcd1234.abcdef.abcdefghijklmnopqrstuvwxyz0"
          ++ "._9z").data q → q = "x1_.".length) ∧
      Detector ("x1_." ++ "abcd1234abcd1234abcd1234.abcdef.abcdefghijklmnopqrstuvwxyz0"
          ++ "._9z") = ["abcd1234abcd1234abcd1234.abcdef.abcdefghijklmnopqrstuvwxyz0"] :=
  ⟨tokenShaped_of_match (by decide), forall_shapedAt_of_bounded (by decide),
    C3_single_match _ _ _ (tokenShaped_of_match (by decide))
      (forall_shapedAt_of_bounded (by decide))⟩

/-- C4, amended: in a text `p ++ t1 ++ m ++ t2 ++ s` with pattern-shaped `t1`
and `t2`, when every pattern-shaped substring that starts inside `p` also ends
inside `p` and every one that starts inside `m` also ends inside `m`, the
Detector returns `t1` and, later in the list, `t2` (also when they are equal). -/
theorem C4_two_matches (p t1 m t2 s : String)
    (h1 : TokenShaped t1.data) (h2 : TokenShaped t2.data)
    (hp : ∀ q, ShapedAt (p ++ t1 ++ m ++ t2 ++ s).data q → q < p.length → q + 59 ≤ p.length)
    (hm : ∀ q, ShapedAt (p ++ t1 ++ m ++ t2 ++ s).data q → p.length + 59 ≤ q →
      q < p.length + 59 + m.length → q + 59 ≤ p.length + 59 + m.length) :
    ∃ l1 l2 l3 : List String,
      Detector (p ++ t1 ++ m ++ t2 ++ s) = l1 ++ t1 :: (l2 ++ t2 :: l3) := by
  have hd1 : (p ++ t1 ++ m ++ t2 ++ s).data = p.data ++ t1.data ++ (m ++ t2 ++ s).data := by
    simp [String.data_append]
  have hd2 : (p ++ t1 ++ m ++ t2 ++ s).data = (p ++ t1 ++ m).data ++ t2.data ++ s.data := by
    simp [String.data_append]
  have hlp : p.length = p.data.length := rfl
  have hlm : m.length = m.data.length := rfl
  have hl2 : (p ++ t1 ++ m).data.length = p.length + 59 + m.length := by
    show (p ++ t1 ++ m).data.length = p.data.length + 59 + m.data.length
    rw [String.data_append, String.data_append, List.length_append, List.length_append,
      h1.length_eq]
  have hs1 : ShapedAt (p ++ t1 ++ m ++ t2 ++ s).data p.length := by
    rw [hd1, hlp]
    exact shapedAt_middle h1
  have hs2 : ShapedAt (p ++ t1 ++ m ++ t2 ++ s).data (p.length + 59 + m.length) := by
    rw [← hl2, hd2]
    exact shapedAt_middle h2
  have e1 : slice (p ++ t1 ++ m ++ t2 ++ s).data p.length (p.length + 59) = t1.data := by
    have := slice_middle p.data t1.data (m ++ t2 ++ s).data
    rw [h1.length_eq] at this
    rw [hd1, hlp]
    exact this
  have e2 : slice (p ++ t1 ++ m ++ t2 ++ s).data (p.length + 59 + m.length)
      (p.length + 59 + m.length + 59) = t2.data := by
    have := slice_middle (p ++ t1 ++ m).data t2.data s.data
    rw [h2.length_eq] at this
    rw [← hl2, hd2]
    exact this
  have hsc := scans_allMatches (p ++ t1 ++ m ++ t2 ++ s)
  obtain ⟨a1, r1, ea, hr1⟩ := hsc.split p.length (Nat.zero_le _) hs1
    (fun r _ hlt hsh => hp r hsh hlt)
  obtain ⟨a2, r2, eb, -⟩ := hr1.split (p.length + 59 + m.length) (by omega) hs2
    (fun r hr hlt hsh => hm r hsh hr hlt)
  refine ⟨a1.map (fun x => String.mk (slice (p ++ t1 ++ m ++ t2 ++ s).data x.1 x.2)),
    a2.map (fun x => String.mk (slice (p ++ t1 ++ m ++ t2 ++ s).data x.1 x.2)),
    r2.map (fun x => String.mk (slice (p ++ t1 ++ m ++ t2 ++ s).data x.1 x.2)), ?_⟩
  rw [Detector_of_scans hsc, ea, eb]
  simp only [List.map_append, List.map_cons, e1, e2]

set_option maxRecDepth 100000 in
/-- C4, witness: the same token twice, with plain text before, between and
after the two occurrences; it is returned twice. -/
theorem C4_two_matches_witness :
    ∃ l1 l2 l3 : List String,
      Detector ("hi " ++ "abcd1234abcd1234abcd1234.abcdef.abcdefghijklmnopqrstuvwxyz0" ++ " and "
          ++ "abcd1234abcd1234abcd1234.abcdef.abcdefghijklmnopqrstuvwxyz0" ++ "!") =
        l1 ++ "abcd1234abcd1234abcd1234.abcdef.abcdefghijklmnopqrstuvwxyz0" ::
          (l2 ++ "abcd1234abcd1234abcd1234.abcdef.abcdefghijklmnopqrstuvwxyz0" :: l3) :=
  C4_two_matches "hi " "abcd1234abcd1234abcd1234.abcdef.abcdefghijklmnopqrstuvwxyz0" " and "
    "abcd1234abcd1234abcd1234.abcdef.abcdefghijklmnopqrstuvwxyz0" "!"
    (tokenShaped_of_match (by decide)) (tokenShaped_of_match (by decide))
    (forall_shapedAt_of_bounded (by decide)) (forall_shapedAt_of_bounded (by decide))

set_option maxRecDepth 100000 in
/-- C4, counterexample: `p` ends in the first 35 characters of a pattern-shaped
string, which the first 24 characters of `t1` complete; the Detector returns
that earlier match and `t2`, and does not return `t1`. -/
theorem C4_overlap_counterexample :
    TokenShaped "abcd1234abcd1234abcd1234.abcdef.abcdefghijklmnopqrstuvwxyz0".data ∧
      TokenShaped "ABCD1234ABCD1234ABCD1234.ABCDEF.ABCDEFGHIJKLMNOPQRSTUVWXYZ0".data ∧
      Detector ("aaaaaaaaaaaaaaaaaaaaaaaa.bbbbbb.ccc" ++
          "abcd1234abcd1234abcd1234.abcdef.abcdefghijklmnopqrstuvwxyz0" ++ " and " ++
          "ABCD1234ABCD1234ABCD1234.ABCDEF.ABCDEFGHIJKLMNOPQRSTUVWXYZ0" ++ "!") =
        ["aaaaaaaaaaaaaaaaaaaaaaaa.bbbbbb.cccabcd1234abcd1234abcd1234",
          "ABCD1234ABCD1234ABCD1234.ABCDEF.ABCDEFGHIJKLMNOPQRSTUVWXYZ0"] ∧
      "abcd1234abcd1234abcd1234.abcdef.abcdefghijklmnopqrstuvwxyz0" ∉
        Detector ("aaaaaaaaaaaaaaaaaaaaaaaa.bbbbbb.ccc" ++
          "abcd1234abcd1234abcd1234.abcdef.abcdefghijklmnopqrstuvwxyz0" ++ " and " ++
          "ABCD1234ABCD1234ABCD1234.ABCDEF.ABCDEFGHIJKLMNOPQRSTUVWXYZ0" ++ "!") :=
  ⟨tokenShaped_of_match (by decide), tokenShaped_of_match (by decide), by decide, by decide⟩

/-- C5: when no pattern-shaped substring starts anywhere in the message text,
the Detector returns the empty list and the handler makes no outgoing call at
all: no request to the paste service and no reply. -/
theorem C5_no_match_no_report (GIST_API_TOKEN : String) (w : World)
    (event : GuildMessageCreate) (h : ∀ q, ¬ ShapedAt event.Message.Content.data q) :
    Detector event.Message.Content = [] ∧
      (onMessage (initGlobals GIST_API_TOKEN) w event).2 = [] ∧
      requests (onMessage (initGlobals GIST_API_TOKEN) w event).2 = [] ∧
      replies (onMessage (initGlobals GIST_API_TOKEN) w event).2 = [] := by
  have hd : Detector event.Message.Content = [] := by
    rw [Detector_of_scans (Scans.done fun r _ => h r)]
    rfl
  have hf : FindAllString (initGlobals GIST_API_TOKEN).tokenRegex event.Message.Content (-1)
      = [] := hd
  have ho : (onMessage (initGlobals GIST_API_TOKEN) w event).2 = [] := by
    simp [onMessage, hf]
  exact ⟨hd, ho, by rw [ho]; rfl, by rw [ho]; rfl⟩

/-- C5, witness: a greeting holds no token, so handling it makes no call. -/
theorem C5_no_match_no_report_witness :
    Detector "hello there" = [] ∧
      (onMessage (initGlobals "secret") (sampleWorld ⟨201, "ok"⟩ (.ok ⟨"u"⟩))
        ⟨7, ⟨"hello there"⟩, 8, 9⟩).2 = [] ∧
      requests (onMessage (initGlobals "secret") (sampleWorld ⟨201, "ok"⟩ (.ok ⟨"u"⟩))
        ⟨7, ⟨"hello there"⟩, 8, 9⟩).2 = [] ∧
      replies (onMessage (initGlobals "secret") (sampleWorld ⟨201, "ok"⟩ (.ok ⟨"u"⟩))
        ⟨7, ⟨"hello there"⟩, 8, 9⟩).2 = [] :=
  C5_no_match_no_report "secret" (sampleWorld ⟨201, "ok"⟩ (.ok ⟨"u"⟩)) ⟨7, ⟨"hello there"⟩, 8, 9⟩
    (fun q => not_shapedAt_of_short (by simp))

/-! ## Reporter -/

theorem findAll_initGlobals (GIST_API_TOKEN text : String) :
    FindAllString (initGlobals GIST_API_TOKEN).tokenRegex text (-1) = Detector text := rfl

theorem onMessage_fst (g : Globals) (w : World) (event : GuildMessageCreate) :
    (onMessage g w event).1 = g := by
  unfold onMessage
  simp only []
  split <;> rfl

theorem dispatch_fst (g : Globals) (history : List (World × GuildMessageCreate)) :
    (dispatch g history).1 = g := by
  induction history generalizing g with
  | nil => rfl
  | cons x rest ih =>
    obtain ⟨w, event⟩ := x
    simp only [dispatch]
    rw [ih, onMessage_fst]

theorem foldl_join_data (rest : List String) (acc : String) :
    (rest.foldl (fun b s => b ++ "\n" ++ s) acc).data =
      acc.data ++ tailLines (rest.map String.data) := by
  induction rest generalizing acc with
  | nil => simp [tailLines]
  | cons t rest ih =>
    simp only [List.foldl_cons, List.map_cons, tailLines]
    rw [ih]
    simp [String.data_append]

theorem Join_data (ms : List String) :
    (Join ms "\n").data = joinedLines (ms.map String.data) := by
  match ms with
  | [] => rfl
  | [e] => simp [Join, joinedLines, tailLines]
  | e :: e' :: rest =>
    simp only [Join, List.map_cons, joinedLines]
    rw [foldl_join_data]
    rfl

theorem tailLines_suffix (ts : List (List Char)) (last : List Char)
    (h : ts.getLast? = some last) : last <:+ tailLines ts := by
  induction ts with
  | nil => simp at h
  | cons t rest ih =>
    cases rest with
    | nil =>
      simp only [List.getLast?_singleton, Option.some.injEq] at h
      subst h
      exact ⟨['\n'], by simp [tailLines]⟩
    | cons t' rest =>
      rw [List.getLast?_cons_cons] at h
      obtain ⟨u, hu⟩ := ih h
      exact ⟨'\n' :: (t ++ u), by rw [tailLines, ← hu]; simp⟩

theorem joinedLines_suffix (ts : List (List Char)) (last : List Char)
    (h : ts.getLast? = some last) : last <:+ joinedLines ts := by
  cases ts with
  | nil => simp at h
  | cons t rest =>
    cases rest with
    | nil =>
      simp only [List.getLast?_singleton, Option.some.injEq] at h
      subst h
      simp [joinedLines, tailLines]
    | cons t' rest =>
      rw [List.getLast?_cons_cons] at h
      obtain ⟨u, hu⟩ := tailLines_suffix _ _ h
      exact ⟨t ++ u, by rw [joinedLines, ← hu]; simp⟩

theorem Sprintf_reply (U : String) :
    Sprintf "Tokens have been detected and sent to <%s> to be invalidated." U =
      "Tokens have been detected and sent to <" ++ U ++ "> to be invalidated." := by
  cases U with
  | mk cs => rfl

theorem onMessage_calls (GIST_API_TOKEN : String) (w : World) (event : GuildMessageCreate)
    (body : String) (r0 : Request) (rs : Response)
    (hmatch : Detector event.Message.Content ≠ [])
    (hbody : w.jsonMarshal (tokenPayload (Detector event.Message.Content)).toJson = .ok body)
    (hreq : w.httpNewRequest "POST" (initGlobals GIST_API_TOKEN).gistApiURL body = .ok r0)
    (hdo : w.httpDo (addHeaders (initGlobals GIST_API_TOKEN) r0) = .ok rs) :
    (onMessage (initGlobals GIST_API_TOKEN) w event).2 =
      Call.jsonMarshal (tokenPayload (Detector event.Message.Content)).toJson ::
      Call.httpNewRequest "POST" (initGlobals GIST_API_TOKEN).gistApiURL body ::
      Call.httpDo (addHeaders (initGlobals GIST_API_TOKEN) r0) ::
      Call.jsonDecode rs.Body ::
      match w.jsonDecode rs.Body with
      | .error err =>
          [Call.logErrorf "there was an error while decoding the response (%d): "
            rs.StatusCode err, Call.bodyClose]
      | .ok response =>
          Call.createMessage event.ChannelID (replyMessage event response) ::
          match w.createMessage event.ChannelID (replyMessage event response) with
          | some err =>
              [Call.logError "there was an error while creating a message: " err,
                Call.bodyClose]
          | none => [Call.bodyClose] := by
  simp only [onMessage, findAll_initGlobals, hmatch, ne_eq, not_false_eq_true, if_true, hbody,
    hreq, hdo]

/-- C6, amended: when handling a message with at least one match reaches the
paste service and the body of its answer cannot be decoded, whatever the status
code of that answer, no reply is sent and the failure is logged together with
the status code. -/
theorem C6_decode_failure (GIST_API_TOKEN : String) (w : World) (event : GuildMessageCreate)
    (body : String) (r0 : Request) (rs : Response) (err : String)
    (hmatch : Detector event.Message.Content ≠ [])
    (hbody : w.jsonMarshal (tokenPayload (Detector event.Message.Content)).toJson = .ok body)
    (hreq : w.httpNewRequest "POST" (initGlobals GIST_API_TOKEN).gistApiURL body = .ok r0)
    (hdo : w.httpDo (addHeaders (initGlobals GIST_API_TOKEN) r0) = .ok rs)
    (hdec : w.jsonDecode rs.Body = .error err) :
    replies (onMessage (initGlobals GIST_API_TOKEN) w event).2 = [] ∧
      decodeFailures (onMessage (initGlobals GIST_API_TOKEN) w event).2 =
        [(rs.StatusCode, err)] ∧
      Call.logErrorf "there was an error while decoding the response (%d): " rs.StatusCode err
        ∈ (onMessage (initGlobals GIST_API_TOKEN) w event).2 := by
  rw [onMessage_calls GIST_API_TOKEN w event body r0 rs hmatch hbody hreq hdo, hdec]
  simp [replies, decodeFailures]

/-- C8: when handling a message with at least one match reaches the paste
service and the body of its answer decodes with `html_url` equal to `U`, exactly
one reply is sent: to the channel of the event, with the fixed sentence around
`U` as content, referring to the message and the guild of the event, with
`FailIfNotExists` false. -/
theorem C8_reply_sent (GIST_API_TOKEN : String) (w : World) (event : GuildMessageCreate)
    (body : String) (r0 : Request) (rs : Response) (U : String)
    (hmatch : Detector event.Message.Content ≠ [])
    (hbody : w.jsonMarshal (tokenPayload (Detector event.Message.Content)).toJson = .ok body)
    (hreq : w.httpNewRequest "POST" (initGlobals GIST_API_TOKEN).gistApiURL body = .ok r0)
    (hdo : w.httpDo (addHeaders (initGlobals GIST_API_TOKEN) r0) = .ok rs)
    (hdec : w.jsonDecode rs.Body = .ok ⟨U⟩) :
    replies (onMessage (initGlobals GIST_API_TOKEN) w event).2 =
      [(event.ChannelID,
        { Content := "Tokens have been detected and sent to <" ++ U ++ "> to be invalidated."
          MessageReference := some
            { MessageID := some event.MessageID
              ChannelID := none
              GuildID := some event.GuildID
              FailIfNotExists := false } })] := by
  rw [onMessage_calls GIST_API_TOKEN w event body r0 rs hmatch hbody hreq hdo, hdec]
  have hr : replyMessage event ⟨U⟩ =
      { Content := "Tokens have been detected and sent to <" ++ U ++ "> to be invalidated."
        MessageReference := some
          { MessageID := some event.MessageID
            ChannelID := none
            GuildID := some event.GuildID
            FailIfNotExists := false } } := by
    simp only [replyMessage, Sprintf_reply]
  simp only [hr]
  split <;> simp [replies]

/-- C9: the handler leaves the package-level variables as they were, so after
any earlier events, whatever their collaborators answered, the matches looked up
for a text are those of the Detector on that text alone; two runs with
different earlier events find the same matches, and the calls made for an event
do not depend on the events handled before it. -/
theorem C9_detector_stateless (GIST_API_TOKEN : String)
    (earlier earlier' : List (World × GuildMessageCreate)) (text : String) :
    (dispatch (initGlobals GIST_API_TOKEN) earlier).1 = initGlobals GIST_API_TOKEN ∧
      FindAllString (dispatch (initGlobals GIST_API_TOKEN) earlier).1.tokenRegex text (-1) =
        Detector text ∧
      FindAllString (dispatch (initGlobals GIST_API_TOKEN) earlier).1.tokenRegex text (-1) =
        FindAllString (dispatch (initGlobals GIST_API_TOKEN) earlier').1.tokenRegex text (-1) ∧
      ∀ (w : World) (event : GuildMessageCreate),
        (onMessage (dispatch (initGlobals GIST_API_TOKEN) earlier).1 w event).2 =
          (onMessage (dispatch (initGlobals GIST_API_TOKEN) earlier').1 w event).2 := by
  rw [dispatch_fst, dispatch_fst]
  exact ⟨rfl, rfl, rfl, fun _ _ => rfl⟩

/-! ## The paste read back -/

theorem TokenShaped.head_alnum {w : List Char} (h : TokenShaped w) :
    ∃ c rest, w = c :: rest ∧ IsAlnum c := by
  obtain ⟨a, b, c, rfl, ha, hA, -⟩ := h
  cases a with
  | nil => simp at ha
  | cons x a => exact ⟨x, _, rfl, hA x (List.mem_cons_self _ _)⟩

theorem not_shapedAt_newline {s pre rest : List Char} (hs : s = pre ++ '\n' :: rest) :
    ¬ ShapedAt s pre.length := by
  rintro ⟨w, hw, hp⟩
  rw [hs, List.drop_left] at hp
  obtain ⟨c, r, rfl, hc⟩ := hw.head_alnum
  obtain ⟨u, hu⟩ := hp
  simp only [List.cons_append, List.cons.injEq] at hu
  obtain ⟨rfl, -⟩ := hu
  exact absurd hc (by decide)

theorem scans_tailLines (ts : List (List Char)) (hts : ∀ t ∈ ts, TokenShaped t) :
    ∀ (s pre : List Char), s = pre ++ tailLines ts →
      ∃ l, Scans s pre.length l ∧ l.map (fun m => slice s m.1 m.2) = ts := by
  induction ts with
  | nil =>
    intro s pre hs
    refine ⟨[], Scans.done fun r hr => not_shapedAt_of_short ?_, rfl⟩
    rw [hs]
    simp only [tailLines, List.append_nil]
    omega
  | cons t rest ih =>
    intro s pre hs
    have ht := hts t (List.mem_cons_self _ _)
    have hs' : s = (pre ++ ['\n']) ++ t ++ tailLines rest := by
      rw [hs]
      simp [tailLines]
    obtain ⟨l, hl, hm⟩ :=
      ih (fun x hx => hts x (List.mem_cons_of_mem _ hx)) s (pre ++ ['\n'] ++ t) hs'
    have hlen : (pre ++ ['\n'] ++ t).length = pre.length + 1 + 59 := by
      simp [ht.length_eq]
    have hlen' : (pre ++ ['\n']).length = pre.length + 1 := by simp
    rw [hlen] at hl
    have hsh : ShapedAt s (pre.length + 1) := by
      have := @shapedAt_middle (pre ++ ['\n']) t (tailLines rest) ht
      rw [← hs', hlen'] at this
      exact this
    refine ⟨(pre.length + 1, pre.length + 1 + 59) :: l,
      Scans.step (Nat.le_succ _) hsh ?_ hl, ?_⟩
    · intro r hr hlt
      have hr' : r = pre.length := by omega
      subst hr'
      exact not_shapedAt_newline (by rw [hs]; rfl)
    · have := slice_middle (pre ++ ['\n']) t (tailLines rest)
      rw [← hs', ht.length_eq, hlen'] at this
      simp only [List.map_cons, hm, this]

theorem Detector_Join (ms : List String) (hms : ∀ t ∈ ms, TokenShaped t.data) :
    Detector (Join ms "\n") = ms := by
  have hd := Join_data ms
  cases ms with
  | nil =>
    rw [Detector_of_scans (Scans.done fun r _ => not_shapedAt_of_short (by simp [Join]))]
    rfl
  | cons t rest =>
    have ht := hms t (List.mem_cons_self _ _)
    simp only [List.map_cons, joinedLines] at hd
    obtain ⟨l, hl, hm⟩ := scans_tailLines (rest.map String.data)
      (fun x hx => by
        obtain ⟨y, hy, rfl⟩ := List.mem_map.mp hx
        exact hms y (List.mem_cons_of_mem _ hy)) _ t.data hd
    rw [ht.length_eq] at hl
    have hsh : ShapedAt (Join (t :: rest) "\n").data 0 := by
      rw [hd]
      exact ⟨t.data, ht, List.prefix_append _ _⟩
    have hs0 : slice (Join (t :: rest) "\n").data 0 (0 + 59) = t.data := by
      rw [hd]
      unfold slice
      exact List.take_left' ht.length_eq
    have hsc : Scans (Join (t :: rest) "\n").data 0 ((0, 0 + 59) :: l) :=
      Scans.step (Nat.le_refl 0) hsh (fun r _ hlt => absurd hlt (Nat.not_lt_zero r)) hl
    rw [Detector_of_scans hsc]
    have hm' : l.map (fun m => String.mk (slice (Join (t :: rest) "\n").data m.1 m.2)) = rest := by
      have := congrArg (List.map String.mk) hm
      simp only [List.map_map] at this
      rw [show (List.map (String.mk ∘ String.data) rest) = rest from by
        simp [Function.comp_def]] at this
      exact this
    simp only [List.map_cons, hs0, hm']

theorem not_mem_newline {w : List Char} (h : TokenShaped w) : '\n' ∉ w := by
  intro hn
  have := h.token_chars '\n' hn
  revert this
  decide

/-! ## Payload, failure and reply on concrete events -/

/-- C7: for a non-empty list of matches the payload has the fixed description,
is public, and encodes to one file `tokens.txt` whose content is the first
match followed, for every further match, by a newline and that match: it
starts with the first match and ends with the last, and for a single match it
is that match. The handler hands this payload to the encoder first. -/
theorem C7_payload (ms : List String) (hne : ms ≠ []) :
    (tokenPayload ms).Description = "Token Invalidator bot by cane#8081." ∧
      (tokenPayload ms).Public = true ∧
      (tokenPayload ms).toJson = JsonValue.obj
        [("description", JsonValue.str "Token Invalidator bot by cane#8081."),
          ("public", JsonValue.bool true),
          ("files", JsonValue.obj [("tokens.txt",
            JsonValue.obj [("content", JsonValue.str (tokenPayload ms).Files.Tokens.Content)])])] ∧
      (tokenPayload ms).Files.Tokens.Content.data = joinedLines (ms.map String.data) ∧
      (∃ first last, ms.head? = some first ∧ ms.getLast? = some last ∧
        first.data <+: (tokenPayload ms).Files.Tokens.Content.data ∧
        last.data <:+ (tokenPayload ms).Files.Tokens.Content.data) ∧
      (∀ t, ms = [t] → (tokenPayload ms).Files.Tokens.Content = t) ∧
      (∀ (GIST_API_TOKEN : String) (w : World) (event : GuildMessageCreate),
        Detector event.Message.Content = ms →
        (onMessage (initGlobals GIST_API_TOKEN) w event).2.head? =
          some (Call.jsonMarshal (tokenPayload ms).toJson)) := by
  have hd : (tokenPayload ms).Files.Tokens.Content.data = joinedLines (ms.map String.data) :=
    Join_data ms
  refine ⟨rfl, rfl, rfl, hd, ?_, ?_, ?_⟩
  · cases ms with
    | nil => exact absurd rfl hne
    | cons t rest =>
      obtain ⟨last, hlast⟩ : ∃ last, (t :: rest).getLast? = some last :=
        ⟨(t :: rest).getLast (by simp), List.getLast?_eq_getLast _ _⟩
      refine ⟨t, last, rfl, hlast, ?_, ?_⟩
      · rw [hd]
        exact List.prefix_append _ _
      · rw [hd]
        apply joinedLines_suffix
        rw [List.getLast?_map, hlast]
        rfl
  · rintro t rfl
    rfl
  · intro GIST_API_TOKEN w event hev
    subst hev
    simp only [onMessage, findAll_initGlobals, hne, ne_eq, not_false_eq_true, if_true,
      List.head?_cons]

/-- C7, witness: the payload of the one-element list of the specification. -/
theorem C7_payload_witness :
    ["abcd1234abcd1234abcd1234.abcdef.abcdefghijklmnopqrstuvwxy"] ≠ [] ∧
      (tokenPayload ["abcd1234abcd1234abcd1234.abcdef.abcdefghijklmnopqrstuvwxy"]).Description
        = "Token Invalidator bot by cane#8081." ∧
      (tokenPayload ["abcd1234abcd1234abcd1234.abcdef.abcdefghijklmnopqrstuvwxy"]).Public
        = true ∧
      (tokenPayload
        ["abcd1234abcd1234abcd1234.abcdef.abcdefghijklmnopqrstuvwxy"]).Files.Tokens.Content
        = "abcd1234abcd1234abcd1234.abcdef.abcdefghijklmnopqrstuvwxy" :=
  have h := C7_payload ["abcd1234abcd1234abcd1234.abcdef.abcdefghijklmnopqrstuvwxy"]
    (List.cons_ne_nil _ _)
  ⟨List.cons_ne_nil _ _, h.1, h.2.1, h.2.2.2.2.2.1 _ rfl⟩

set_option maxRecDepth 100000 in
/-- C6, witness: the paste service answers 502 with a body that is no JSON. -/
theorem C6_decode_failure_witness :
    replies (onMessage (initGlobals "secret")
        (sampleWorld ⟨502, "Bad Gateway"⟩ (.error "invalid character"))
        ⟨7, ⟨"key: abcd1234abcd1234abcd1234.abcdef.abcdefghijklmnopqrstuvwxyz0"⟩, 8, 9⟩).2 = [] ∧
      decodeFailures (onMessage (initGlobals "secret")
        (sampleWorld ⟨502, "Bad Gateway"⟩ (.error "invalid character"))
        ⟨7, ⟨"key: abcd1234abcd1234abcd1234.abcdef.abcdefghijklmnopqrstuvwxyz0"⟩, 8, 9⟩).2 =
        [(502, "invalid character")] ∧
      Call.logErrorf "there was an error while decoding the response (%d): " 502
        "invalid character" ∈ (onMessage (initGlobals "secret")
        (sampleWorld ⟨502, "Bad Gateway"⟩ (.error "invalid character"))
        ⟨7, ⟨"key: abcd1234abcd1234abcd1234.abcdef.abcdefghijklmnopqrstuvwxyz0"⟩, 8, 9⟩).2 :=
  C6_decode_failure "secret" (sampleWorld ⟨502, "Bad Gateway"⟩ (.error "invalid character"))
    ⟨7, ⟨"key: abcd1234abcd1234abcd1234.abcdef.abcdefghijklmnopqrstuvwxyz0"⟩, 8, 9⟩
    "payload" ⟨"POST", "https://api.github.com/gists", "payload", []⟩ ⟨502, "Bad Gateway"⟩
    "invalid character" (by decide) rfl rfl rfl rfl

set_option maxRecDepth 100000 in
/-- C6, counterexample: the paste service answers 401, which is no 2xx status,
with a JSON object that has no `html_url`; the body decodes to an empty URL and
the handler sends a reply all the same. -/
theorem C6_status_counterexample :
    Detector "key: abcd1234abcd1234abcd1234.abcdef.abcdefghijklmnopqrstuvwxyz0" ≠ [] ∧
      ¬ ((200 : Int) ≤ 401 ∧ (401 : Int) ≤ 299) ∧
      replies (onMessage (initGlobals "secret")
        (sampleWorld ⟨401, "\x7b\"message\":\"Bad credentials\"\x7d"⟩ (.ok ⟨""⟩))
        ⟨7, ⟨"key: abcd1234abcd1234abcd1234.abcdef.abcdefghijklmnopqrstuvwxyz0"⟩, 8, 9⟩).2 =
        [(8, { Content := "Tokens have been detected and sent to <> to be invalidated."
               MessageReference := some
                 { MessageID := some 7
                   ChannelID := none
                   GuildID := some 9
                   FailIfNotExists := false } })] := by
  decide

set_option maxRecDepth 100000 in
/-- C8, witness: the paste service answers 201 with the URL of the new paste. -/
theorem C8_reply_sent_witness :
    replies (onMessage (initGlobals "secret")
        (sampleWorld ⟨201, "\x7b\"html_url\":\"https://gist.example/abc\"\x7d"⟩
          (.ok ⟨"https://gist.example/abc"⟩))
        ⟨7, ⟨"key: abcd1234abcd1234abcd1234.abcdef.abcdefghijklmnopqrstuvwxyz0"⟩, 8, 9⟩).2 =
      [(8, { Content := "Tokens have been detected and sent to <" ++ "https://gist.example/abc"
               ++ "> to be invalidated."
             MessageReference := some
               { MessageID := some 7
                 ChannelID := none
                 GuildID := some 9
                 FailIfNotExists := false } })] :=
  C8_reply_sent "secret"
    (sampleWorld ⟨201, "\x7b\"html_url\":\"https://gist.example/abc\"\x7d"⟩
      (.ok ⟨"https://gist.example/abc"⟩))
    ⟨7, ⟨"key: abcd1234abcd1234abcd1234.abcdef.abcdefghijklmnopqrstuvwxyz0"⟩, 8, 9⟩
    "payload" ⟨"POST", "https://api.github.com/gists", "payload", []⟩
    ⟨201, "\x7b\"html_url\":\"https://gist.example/abc\"\x7d"⟩ "https://gist.example/abc"
    (by decide) rfl rfl rfl rfl

/-- C10: when a message has at least one match, the file content the handler
hands to the encoder, scanned again, yields exactly the matches of the message;
that content is the matches one per line, and every match has 59 characters,
holds no newline and is its own only match. -/
theorem C10_paste_rescan (GIST_API_TOKEN : String) (w : World) (event : GuildMessageCreate)
    (hmatch : Detector event.Message.Content ≠ []) :
    (onMessage (initGlobals GIST_API_TOKEN) w event).2.head? =
        some (Call.jsonMarshal (tokenPayload (Detector event.Message.Content)).toJson) ∧
      Detector (tokenPayload (Detector event.Message.Content)).Files.Tokens.Content =
        Detector event.Message.Content ∧
      (tokenPayload (Detector event.Message.Content)).Files.Tokens.Content.data =
        joinedLines ((Detector event.Message.Content).map String.data) ∧
      ∀ t ∈ Detector event.Message.Content,
        '\n' ∉ t.data ∧ t.length = 59 ∧ Detector t = [t] := by
  refine ⟨?_, Detector_Join _ fun t ht => Detector_mem_shaped ht, Join_data _, ?_⟩
  · simp only [onMessage, findAll_initGlobals, hmatch, ne_eq, not_false_eq_true, if_true,
      List.head?_cons]
  · intro t ht
    have hsh := Detector_mem_shaped ht
    refine ⟨not_mem_newline hsh, hsh.length_eq, ?_⟩
    have := Detector_Join [t] (fun x hx => by
      rw [List.mem_singleton.mp hx]
      exact hsh)
    exact this

set_option maxRecDepth 100000 in
/-- C10, witness: a message with two tokens and text around them. -/
theorem C10_paste_rescan_witness :
    Detector (tokenPayload (Detector
        "a abcd1234abcd1234abcd1234.abcdef.abcdefghijklmnopqrstuvwxyz0, ABCD1234ABCD1234ABCD1234.AB-DEF.ABCDEFGHIJKLMNOPQRSTUVWXYZ_ b"
        )).Files.Tokens.Content =
      Detector
        "a abcd1234abcd1234abcd1234.abcdef.abcdefghijklmnopqrstuvwxyz0, ABCD1234ABCD1234ABCD1234.AB-DEF.ABCDEFGHIJKLMNOPQRSTUVWXYZ_ b" :=
  (C10_paste_rescan "secret" (sampleWorld ⟨201, "ok"⟩ (.ok ⟨"u"⟩))
    ⟨7, ⟨"a abcd1234abcd1234abcd1234.abcdef.abcdefghijklmnopqrstuvwxyz0, ABCD1234ABCD1234ABCD1234.AB-DEF.ABCDEFGHIJKLMNOPQRSTUVWXYZ_ b"⟩,
      8, 9⟩ (by decide)).2.1

end TokenInvalidator
